import Mathlib

/-!
Verification development for the V2Limiter usage-enforcement engine.

The Python sources are shallowly embedded as pure Lean functions:

* Python `dict`s and Redis hashes become association lists over `String`
  keys, read through `lookupKey` (mirroring `dict.get` / `hget`) and
  written through `setKey` / `delKey` (mirroring item assignment and
  `hdel`).
* Python `set` values are represented canonically as duplicate-free lists
  in first-occurrence order; every set operation in the source is modelled
  by the corresponding list operation after `dedup`.
* `time.time()` becomes an explicit `now : Int` argument; fallible
  external effects (Redis writes, config-file writes, HTTP lookups)
  become explicit boolean/oracle parameters threaded through the state.
-/

namespace V2Limiter

/-- Model of a Python `dict` / Redis-hash read (`d.get(k)` / `hget`):
first binding of the key in the association list. -/
def lookupKey {β : Type} (k : String) : List (String × β) → Option β
  | [] => none
  | (a, b) :: t => if a = k then some b else lookupKey k t

/-- Model of a Python `dict` / Redis-hash write (`d[k] = v` / `hset`):
replace the first binding of the key, or append a new binding. -/
def setKey {β : Type} (k : String) (v : β) : List (String × β) → List (String × β)
  | [] => [(k, v)]
  | (a, b) :: t => if a = k then (k, v) :: t else (a, b) :: setKey k v t

/-- Model of a Python `del d[k]` / Redis `hdel`: remove every binding of
the key. -/
def delKey {β : Type} (k : String) : List (String × β) → List (String × β)
  | [] => []
  | (a, b) :: t => if a = k then delKey k t else (a, b) :: delKey k t

/-! ## Session Aggregator (`utils/check_usage.py`) -/

/-- `utils/check_usage.py` line 31–32: for one user's accumulated IP
multiset, keep the IPs observed strictly more than twice and deduplicate
(`list({ip for ip in data.ip if ip_counts[ip] > 2})`); the Python set is
rendered canonically in first-occurrence order. -/
def filteredIps (l : List String) : List String :=
  (l.filter (fun ip => 2 < l.count ip)).dedup

/-- The in-place mutation of `ACTIVE_USERS` performed by `check_ip_used`
(line 32: `data.ip = list(...)`): every user's multiset is replaced by its
filtered, deduplicated set. -/
def checkIpUsedState (st : List (String × List String)) : List (String × List String) :=
  st.map (fun p => (p.1, filteredIps p.2))

/-- Insertion step for the descending-by-size ordering of the report. -/
def insertBySize (x : String × List String) :
    List (String × List String) → List (String × List String)
  | [] => [x]
  | y :: t => if y.2.length ≤ x.2.length then x :: y :: t else y :: insertBySize x t

/-- `utils/check_usage.py` lines 39–45: `sorted(all_users_log.items(),
key=lambda x: len(x[1]), reverse=True)`.  Modelled as an insertion sort;
the claims use the result only up to permutation. -/
def sortBySize : List (String × List String) → List (String × List String)
  | [] => []
  | x :: t => insertBySize x (sortBySize t)

/-- `check_ip_used`: returns the (sorted) `all_users_log` mapping together
with the mutated `ACTIVE_USERS` state.  Logging and the admin messages are
side channels; the message filter (`if ips`) is modelled by
`reportEntries` below. -/
def check_ip_used (st : List (String × List String)) :
    List (String × List String) × List (String × List String) :=
  let st' := checkIpUsedState st
  (sortBySize st', st')

/-- `utils/check_usage.py` lines 53–58: the per-user admin messages are
generated only for entries with a non-empty IP list (`if ips`). -/
def reportEntries (log : List (String × List String)) : List (String × List String) :=
  log.filter (fun p => !p.2.isEmpty)

/-! ## Distributed cache: service-IP replica (`utils/redis_utils.py`) -/

/-- The `service_ips` Redis hash: service name to stored JSON list of IPs. -/
def RedisMap : Type := List (String × List String)

instance : DecidableEq RedisMap := by
  unfold RedisMap
  infer_instance

/-- `RedisClient.get_service_ips` (lines 121–141): `hget` the service's
list, or the empty list when the field is absent. -/
def get_service_ips (redis : RedisMap) (service_name : String) : List String :=
  (lookupKey service_name redis).getD []

/-- `RedisClient.add_ip_to_service` (lines 55–84): load the stored list as
a set (modelled by `dedup`), add the IP, and `hset` the result.  The
success path is modelled; a Redis I/O failure leaves the hash unchanged
and returns `False` without touching the state. -/
def add_ip_to_service (redis : RedisMap) (service_name ip_address : String) :
    Bool × RedisMap :=
  (true,
    setKey service_name
      (if ip_address ∈ ((lookupKey service_name redis).getD []).dedup
       then ((lookupKey service_name redis).getD []).dedup
       else ((lookupKey service_name redis).getD []).dedup ++ [ip_address])
      redis)

/-- `RedisClient.remove_ip_from_service` (lines 86–119): absent service or
absent IP returns `False`; otherwise the IP is removed from the set and
the field is rewritten, or deleted entirely when the set became empty. -/
def remove_ip_from_service (redis : RedisMap) (service_name ip_address : String) :
    Bool × RedisMap :=
  match lookupKey service_name redis with
  | none => (false, redis)
  | some l =>
    if ip_address ∈ l.dedup then
      if (l.dedup.erase ip_address).isEmpty then (true, delKey service_name redis)
      else (true, setKey service_name (l.dedup.erase ip_address) redis)
    else (false, redis)

/-- The replica invariant: no service is ever mapped to an empty IP set. -/
def RedisInv (redis : RedisMap) : Prop :=
  ∀ s l, lookupKey s redis = some l → l ≠ []

/-! ## Enforcement Scheduler (`utils/check_usage.py`, `check_users_usage`) -/

/-- `utils/check_usage.py` line 106: the effective limit is the user's
special limit when present, else the general limit
(`int(special_limit.get(user_name, limit_number))`). -/
def userLimit (special_limit : List (String × Int)) (limit_number : Int) (u : String) : Int :=
  (lookupKey u special_limit).getD limit_number

/-- `utils/check_usage.py` lines 129–131: the purge loop — remove each of
the service's currently stored IPs from the replica, one at a time. -/
def removeIps (u : String) : List String → RedisMap → RedisMap
  | [], redis => redis
  | ip :: rest, redis => removeIps u rest (remove_ip_from_service redis u ip).2

/-- The whole purge of a disabled user's entries: fetch the service's IPs
and remove them all (`utils/check_usage.py` lines 129–131). -/
def purgeService (redis : RedisMap) (u : String) : RedisMap :=
  removeIps u (get_service_ips redis u) redis

/-- Result of one enforcement pass: warned users, disabled users, and the
resulting replica state. -/
structure CycleResult where
  warnings : List String
  disabled : List String
  redis : RedisMap

/-- `utils/check_usage.py` lines 104–137: iterate the snapshot; a
non-exempt user whose distinct IP count strictly exceeds the effective
limit is warned, disabled through the panel, and has their replica
entries purged.  The success path of the panel call and the Redis I/O is
modelled (a `ValueError` from `disable_user` or a Redis error only skips
the corresponding side effect in the source). -/
def processUsers (except_users : List String) (special_limit : List (String × Int))
    (limit_number : Int) : List (String × List String) → RedisMap → CycleResult
  | [], redis => ⟨[], [], redis⟩
  | (u, ips) :: t, redis =>
    if u ∈ except_users then processUsers except_users special_limit limit_number t redis
    else if (ips.dedup.length : Int) > userLimit special_limit limit_number u then
      let rest := processUsers except_users special_limit limit_number t (purgeService redis u)
      ⟨u :: rest.warnings, u :: rest.disabled, rest.redis⟩
    else processUsers except_users special_limit limit_number t redis

/-- `check_users_usage`: snapshot the aggregator via `check_ip_used`
(lines 88, 104) and run the per-user enforcement pass with the
configuration's exemption list, special limits and general limit. -/
def check_users_usage (active : List (String × List String))
    (except_users : List String) (special_limit : List (String × Int))
    (limit_number : Int) (redis : RedisMap) : CycleResult :=
  processUsers except_users special_limit limit_number (check_ip_used active).1 redis

/-! ## Geolocation Resolver (`utils/parse_logs.py`) -/

/-- `utils/parse_logs.py` line 45: `CACHE_TTL = 3 * 24 * 60 * 60`. -/
def CACHE_TTL : Int := 3 * 24 * 60 * 60

/-- One persistent-cache entry (`utils/parse_logs.py` lines 179–183):
`{"country_code": ..., "timestamp": ..., "source": ...}`. -/
structure CacheEntry where
  country_code : String
  timestamp : Int
  source : String
deriving DecidableEq

/-- The two cache tiers of the resolver: the in-process `CACHE`
(ip to country) and the persistent `IP_CACHE` (ip to entry). -/
structure GeoState where
  mem : List (String × String)
  pers : List (String × CacheEntry)
deriving DecidableEq

/-- One more HTTP call on a result triple (result, state, calls made). -/
def bumpCall (r : Option String × GeoState × Nat) : Option String × GeoState × Nat :=
  (r.1, r.2.1, r.2.2 + 1)

/-- `utils/parse_logs.py` lines 147–200: try the (already shuffled)
endpoint list in order; the oracle gives, per endpoint, the parsed
country field (`none` covers connection errors, non-200 statuses, parse
errors and a missing field).  A truthy country is accepted, written to
both cache tiers and returned; otherwise the next endpoint is tried.  The
third component counts HTTP calls made. -/
def resolveFromEndpoints (st : GeoState) (now : Int) (ip : String) :
    List (String × Option String) → Option String × GeoState × Nat
  | [] => (none, st, 0)
  | (endpoint_name, r) :: rest =>
    match r with
    | some c =>
      if c ≠ "" then
        (some c,
          ⟨setKey ip c st.mem, setKey ip ⟨c, now, endpoint_name⟩ st.pers⟩, 1)
      else bumpCall (resolveFromEndpoints st now ip rest)
    | none => bumpCall (resolveFromEndpoints st now ip rest)

/-- `check_ip` (`utils/parse_logs.py` lines 114–200): in-memory cache
first; then the persistent cache, served only when the entry is younger
than the TTL and carries a truthy country code (which also refreshes the
in-memory tier); otherwise fall through to the endpoint chain.  The
periodic `save_ip_cache` flush inside the loop writes the cache file and
does not change either tier, so it does not appear in the state. -/
def check_ip (st : GeoState) (now : Int) (oracle : List (String × Option String))
    (ip_address : String) : Option String × GeoState × Nat :=
  match lookupKey ip_address st.mem with
  | some c => (some c, st, 0)
  | none =>
    match lookupKey ip_address st.pers with
    | some e =>
      if now - e.timestamp < CACHE_TTL ∧ e.country_code ≠ "" then
        (some e.country_code, ⟨setKey ip_address e.country_code st.mem, st.pers⟩, 0)
      else resolveFromEndpoints st now ip_address oracle
    | none => resolveFromEndpoints st now ip_address oracle

/-- `save_ip_cache` (`utils/parse_logs.py` lines 86–107): the flushed
cache content — every entry whose age has reached the TTL is dropped
before writing. -/
def save_ip_cache (now : Int) (cache : List (String × CacheEntry)) :
    List (String × CacheEntry) :=
  cache.filter (fun p => decide (now - p.2.timestamp < CACHE_TTL))

/-! ## Log Parser (`utils/parse_logs.py`, `parse_logs`) -/

/-- `utils/parse_logs.py` lines 26–35: the username stoplist. -/
def INVALID_EMAILS : List String :=
  ["API]", "Found", "(normal)", "timeout", "EOF", "address", "INFO", "request"]

/-- The mutable state touched by one parsed line: the run's `VALID_IPS`
and `INVALID_IPS` lists, the `ACTIVE_USERS` aggregator and the Redis
service-IP replica. -/
structure ParseState where
  validIps : List String
  invalidIps : List String
  active : List (String × List String)
  redis : RedisMap

/-- `utils/parse_logs.py` lines 305–312: append the IP to the user's
multiset, or create the user with a singleton list. -/
def recordUser (active : List (String × List String)) (email ip : String) :
    List (String × List String) :=
  match lookupKey email active with
  | some l => setKey email (l ++ [ip]) active
  | none => active ++ [(email, [ip])]

/-- `utils/parse_logs.py` lines 296–324: the tail of the per-line loop —
reject stoplisted usernames, otherwise record the observation in
`ACTIVE_USERS` and push it to the Redis replica (best effort). -/
def emailStep (st : ParseState) (email ip : String) : ParseState :=
  if email ∈ INVALID_EMAILS then st
  else { st with
          active := recordUser st.active email ip,
          redis := (add_ip_to_service st.redis email ip).2 }

/-- `utils/parse_logs.py` lines 265–324: processing of one accepted log
line after the IP and username have been extracted.  `validIp` stands for
the verdict of `is_valid_ip` (the `ipaddress` library call, an external
collaborator), `resolved` for the country returned by `check_ip`.  The IP
stage either accepts the IP (possibly extending `VALID_IPS`), blacklists a
location mismatch, or skips the line; only accepted lines reach the
username stage. -/
def processObservation (locCheckEnabled : Bool) (ipLocation : String)
    (validIp : Bool) (resolved : Option String) (st : ParseState)
    (ip email : String) : ParseState :=
  if ip ∈ st.validIps then emailStep st email ip
  else if validIp ∧ ip ∉ st.invalidIps then
    if locCheckEnabled ∧ ipLocation ≠ "None" then
      match resolved with
      | some c =>
        if c ≠ "" ∧ c = ipLocation then
          emailStep { st with validIps := st.validIps ++ [ip] } email ip
        else if c ≠ "" ∧ c ≠ ipLocation then
          { st with invalidIps := st.invalidIps ++ [ip] }
        else emailStep { st with validIps := st.validIps ++ [ip] } email ip
      | none => emailStep { st with validIps := st.validIps ++ [ip] } email ip
    else emailStep { st with validIps := st.validIps ++ [ip] } email ip
  else st

/-! ## Dual-Store Synchronizer (`utils/special_limits_sync.py`,
`utils/except_users_sync.py`, `utils/redis_utils.py`) -/

/-- The two stores as seen by the synchronizer: the Redis replica and the
`config.json` durable store, restricted to the special-limit map and the
exemption list.  `redisOk` / `configOk` parameters below say whether the
respective write (Redis `set` / `write_config`) succeeds; a failed
`write_config` restores from backup, so a failed durable write leaves the
config unchanged (`utils/write_config.py` lines 41–57). -/
structure StoresState where
  redisSpecial : List (String × Int)
  redisExcept : List String
  configSpecial : List (String × Int)
  configExcept : List String
deriving DecidableEq

/-- `RedisClient.add_special_limit` (`utils/redis_utils.py` lines
318–343): read the limits, set `limits[username] = limit`, store back;
a failed Redis write returns `False` with the store untouched. -/
def redis_add_special_limit (redisOk : Bool) (st : StoresState)
    (username : String) (limit : Int) : Bool × StoresState :=
  if redisOk then
    (true, { st with redisSpecial := setKey username limit st.redisSpecial })
  else (false, st)

/-- `RedisClient.remove_special_limit` (lines 345–371): delete the
username's limit when present (storing back, fallibly); absent username
returns `False` without writing. -/
def redis_remove_special_limit (redisOk : Bool) (st : StoresState)
    (username : String) : Bool × StoresState :=
  match lookupKey username st.redisSpecial with
  | some _ =>
      if redisOk then
        (true, { st with redisSpecial := delKey username st.redisSpecial })
      else (false, st)
  | none => (false, st)

/-- `RedisClient.add_except_user` (lines 243–269): append the username
when absent (storing back, fallibly); an already-present username returns
`True` without writing. -/
def redis_add_except_user (redisOk : Bool) (st : StoresState)
    (username : String) : Bool × StoresState :=
  if username ∈ st.redisExcept then (true, st)
  else if redisOk then
    (true, { st with redisExcept := st.redisExcept ++ [username] })
  else (false, st)

/-- `RedisClient.remove_except_user` (lines 271–297): remove the username
when present (storing back, fallibly); absent username returns `False`. -/
def redis_remove_except_user (redisOk : Bool) (st : StoresState)
    (username : String) : Bool × StoresState :=
  if username ∈ st.redisExcept then
    if redisOk then
      (true, { st with redisExcept := st.redisExcept.erase username })
    else (false, st)
  else (false, st)

/-- `sync_special_limits_to_config` (`utils/special_limits_sync.py` lines
35–52): read the limits from Redis and write them into the config file;
a failed config write leaves the config unchanged. -/
def sync_special_limits_to_config (configOk : Bool) (st : StoresState) :
    Bool × StoresState :=
  if configOk then (true, { st with configSpecial := st.redisSpecial })
  else (false, st)

/-- `sync_except_users_to_config` (`utils/except_users_sync.py` lines
35–58): read the exemption list from Redis and write it into the config
file; a failed config write leaves the config unchanged. -/
def sync_except_users_to_config (configOk : Bool) (st : StoresState) :
    Bool × StoresState :=
  if configOk then (true, { st with configExcept := st.redisExcept })
  else (false, st)

/-- `add_special_limit` (`utils/special_limits_sync.py` lines 55–85):
update Redis first; only on Redis success sync the limits into the
durable config. -/
def add_special_limit (redisOk configOk : Bool) (st : StoresState)
    (username : String) (limit : Int) : Bool × StoresState :=
  match redis_add_special_limit redisOk st username limit with
  | (false, st1) => (false, st1)
  | (true, st1) => sync_special_limits_to_config configOk st1

/-- `remove_special_limit` (`utils/special_limits_sync.py` lines 88–117):
remove from Redis first; only on Redis success sync the limits into the
durable config. -/
def remove_special_limit (redisOk configOk : Bool) (st : StoresState)
    (username : String) : Bool × StoresState :=
  match redis_remove_special_limit redisOk st username with
  | (false, st1) => (false, st1)
  | (true, st1) => sync_special_limits_to_config configOk st1

/-- `add_except_user` (`utils/except_users_sync.py` lines 61–90): update
Redis first; only on Redis success sync the exemption list into the
durable config. -/
def add_except_user (redisOk configOk : Bool) (st : StoresState)
    (username : String) : Bool × StoresState :=
  match redis_add_except_user redisOk st username with
  | (false, st1) => (false, st1)
  | (true, st1) => sync_except_users_to_config configOk st1

/-- `remove_except_user` (`utils/except_users_sync.py` lines 93–122):
remove from Redis first; only on Redis success sync the exemption list
into the durable config. -/
def remove_except_user (redisOk configOk : Bool) (st : StoresState)
    (username : String) : Bool × StoresState :=
  match redis_remove_except_user redisOk st username with
  | (false, st1) => (false, st1)
  | (true, st1) => sync_except_users_to_config configOk st1

/-! ## Check-interval configuration (`telegram_bot/main.py`,
`telegram_bot/utils.py`) -/

/-- The `config.json` file as the interval handler sees it: `none` when
the file does not exist, otherwise its key/value record (integer-valued
keys suffice here). -/
def ConfigFile : Type := Option (List (String × Int))

instance : DecidableEq ConfigFile := by
  unfold ConfigFile
  infer_instance

/-- `save_check_interval` (`telegram_bot/utils.py` lines 386–398): store
`CHECK_INTERVAL` into the existing config, or create a fresh config
holding only that key. -/
def save_check_interval (interval : Int) (cfg : ConfigFile) : Int × List (String × Int) :=
  match cfg with
  | some data => (interval, setKey "CHECK_INTERVAL" interval data)
  | none => (interval, [("CHECK_INTERVAL", interval)])

/-- `get_check_interval_handler` (`telegram_bot/main.py` lines 825–857):
a numeric input below 10 is refused (the reply warns and nothing is
saved); otherwise `save_check_interval` persists it.  Returns the config
state after the interaction and whether the value was accepted. -/
def get_check_interval_handler (interval : Int) (cfg : ConfigFile) :
    ConfigFile × Bool :=
  if interval < 10 then (cfg, false)
  else (some (save_check_interval interval cfg).2, true)

theorem lookupKey_setKey_self {β : Type} (k : String) (v : β) (m : List (String × β)) :
    lookupKey k (setKey k v m) = some v := by
  induction m with
  | nil => simp [setKey, lookupKey]
  | cons p t ih =>
      obtain ⟨a, b⟩ := p
      by_cases h : a = k
      · simp [setKey, lookupKey, h]
      · simp [setKey, lookupKey, h, ih]

theorem lookupKey_setKey_ne {β : Type} {a k : String} (h : a ≠ k) (v : β)
    (m : List (String × β)) : lookupKey a (setKey k v m) = lookupKey a m := by
  induction m with
  | nil => simp [setKey, lookupKey, Ne.symm h]
  | cons p t ih =>
      obtain ⟨x, b⟩ := p
      by_cases hx : x = k
      · subst hx
        simp [setKey, lookupKey, Ne.symm h]
      · simp [setKey, lookupKey, hx, ih]

theorem lookupKey_delKey_self {β : Type} (k : String) (m : List (String × β)) :
    lookupKey k (delKey k m) = none := by
  induction m with
  | nil => simp [delKey, lookupKey]
  | cons p t ih =>
      obtain ⟨a, b⟩ := p
      by_cases h : a = k
      · simp [delKey, h, ih]
      · simp [delKey, lookupKey, h, ih]

theorem lookupKey_delKey_ne {β : Type} {a k : String} (h : a ≠ k)
    (m : List (String × β)) : lookupKey a (delKey k m) = lookupKey a m := by
  induction m with
  | nil => simp [delKey, lookupKey]
  | cons p t ih =>
      obtain ⟨x, b⟩ := p
      by_cases hx : x = k
      · subst hx
        simp [delKey, lookupKey, Ne.symm h, ih]
      · simp [delKey, lookupKey, hx, ih]

theorem lookupKey_append_right {β : Type} {k : String} {m₁ : List (String × β)}
    (h : lookupKey k m₁ = none) (m₂ : List (String × β)) :
    lookupKey k (m₁ ++ m₂) = lookupKey k m₂ := by
  induction m₁ with
  | nil => simp
  | cons p t ih =>
      obtain ⟨a, b⟩ := p
      by_cases ha : a = k
      · simp [lookupKey, ha] at h
      · simp [lookupKey, ha] at h ⊢
        exact ih h

theorem mem_of_lookupKey {β : Type} {k : String} {v : β} :
    ∀ {m : List (String × β)}, lookupKey k m = some v → (k, v) ∈ m := by
  intro m
  induction m with
  | nil => intro h; simp [lookupKey] at h
  | cons p t ih =>
      obtain ⟨a, b⟩ := p
      intro h
      by_cases ha : a = k
      · subst ha
        simp [lookupKey] at h
        simp [h]
      · simp [lookupKey, ha] at h
        exact List.mem_cons_of_mem _ (ih h)

theorem insertBySize_perm (x : String × List String) (l : List (String × List String)) :
    List.Perm (insertBySize x l) (x :: l) := by
  induction l with
  | nil => simp [insertBySize]
  | cons y t ih =>
      by_cases h : y.2.length ≤ x.2.length
      · simp [insertBySize, h]
      · simp only [insertBySize, h, if_false]
        exact (ih.cons y).trans (List.Perm.swap x y t)

theorem sortBySize_perm (l : List (String × List String)) :
    List.Perm (sortBySize l) l := by
  induction l with
  | nil => simp [sortBySize]
  | cons x t ih => exact (insertBySize_perm x (sortBySize t)).trans (ih.cons x)

theorem mem_filteredIps_iff (l : List String) (ip : String) :
    ip ∈ filteredIps l ↔ 2 < l.count ip := by
  unfold filteredIps
  rw [List.mem_dedup, List.mem_filter]
  constructor
  · intro h
    simpa using h.2
  · intro h
    refine ⟨?_, by simpa using h⟩
    exact List.count_pos_iff.mp (Nat.lt_of_lt_of_le (by norm_num) (Nat.le_of_lt h))

theorem filteredIps_nodup (l : List String) : (filteredIps l).Nodup :=
  List.nodup_dedup _

theorem lookupKey_checkIpUsedState (st : List (String × List String)) (u : String) :
    lookupKey u (checkIpUsedState st) = (lookupKey u st).map filteredIps := by
  induction st with
  | nil => simp [checkIpUsedState, lookupKey]
  | cons p t ih =>
      obtain ⟨a, l⟩ := p
      by_cases h : a = u
      · simp [checkIpUsedState, lookupKey, h]
      · simpa [checkIpUsedState, lookupKey, h] using ih

/-- Claim C3: for every sequence of observations accumulated in a window,
an IP appears in a user's effective (snapshot) IP set iff that IP's
multiset count for that user in the window is strictly greater than 2, and
the effective set contains no duplicates. -/
theorem snapshot_effective_set_iff_count_gt_two
    (st : List (String × List String)) (u : String) (l : List String) (ip : String)
    (h : lookupKey u st = some l) :
    (u, filteredIps l) ∈ (check_ip_used st).1 ∧
      (ip ∈ filteredIps l ↔ 2 < l.count ip) ∧ (filteredIps l).Nodup := by
  refine ⟨?_, mem_filteredIps_iff l ip, filteredIps_nodup l⟩
  have hm : (u, filteredIps l) ∈ checkIpUsedState st := by
    have := mem_of_lookupKey h
    exact List.mem_map.mpr ⟨(u, l), this, rfl⟩
  exact (sortBySize_perm (checkIpUsedState st)).mem_iff.mpr hm

theorem snapshot_effective_set_iff_count_gt_two_witness :
    ("alice", filteredIps ["a", "a", "a", "b"]) ∈
        (check_ip_used [("alice", ["a", "a", "a", "b"])]).1 ∧
      ("a" ∈ filteredIps ["a", "a", "a", "b"] ↔
        2 < (["a", "a", "a", "b"] : List String).count "a") ∧
      (filteredIps ["a", "a", "a", "b"]).Nodup :=
  snapshot_effective_set_iff_count_gt_two [("alice", ["a", "a", "a", "b"])]
    "alice" ["a", "a", "a", "b"] "a" (by decide)

/-- Claim C5 counterexample: a user whose filtered IP set is empty is NOT
discarded from the returned mapping — `check_ip_used` keeps the user with
an empty list ("bob" has one sighting of "ip1", so his filtered set is
empty, yet he remains in the snapshot). -/
theorem snapshot_keeps_empty_user :
    (check_ip_used [("bob", ["ip1"])]).1 = [("bob", [])] := by decide

/-- Claim C5 (amended): on snapshot, users whose filtered IP set is empty
are retained in the returned mapping with an empty list; only the admin
report entries omit them.  The snapshot's key set is exactly the
aggregator's key set, and the report contains no empty entry. -/
theorem snapshot_retains_empty_users (st : List (String × List String)) (u : String) :
    (u ∈ (check_ip_used st).1.map Prod.fst ↔ u ∈ st.map Prod.fst) ∧
      (∀ p ∈ reportEntries (check_ip_used st).1, p.2 ≠ []) := by
  constructor
  · have h1 : (check_ip_used st).1 = sortBySize (checkIpUsedState st) := rfl
    have hkeys : (checkIpUsedState st).map Prod.fst = st.map Prod.fst := by
      unfold checkIpUsedState
      rw [List.map_map]
      rfl
    rw [h1, ((sortBySize_perm (checkIpUsedState st)).map Prod.fst).mem_iff, hkeys]
  · intro p hp
    have := (List.mem_filter.mp hp).2
    simpa [List.isEmpty_iff] using this

theorem snapshot_retains_empty_users_witness :
    ("bob" ∈ (check_ip_used [("bob", ["ip1"])]).1.map Prod.fst ↔
        "bob" ∈ [("bob", ["ip1"])].map Prod.fst) ∧
      (∀ p ∈ reportEntries (check_ip_used [("bob", ["ip1"])]).1, p.2 ≠ []) :=
  snapshot_retains_empty_users [("bob", ["ip1"])] "bob"

theorem filteredIps_filteredIps (l : List String) : filteredIps (filteredIps l) = [] := by
  have hnd : (filteredIps l).Nodup := filteredIps_nodup l
  unfold filteredIps
  have hle : ∀ ip ∈ (l.filter (fun ip => 2 < l.count ip)).dedup,
      ((l.filter (fun ip => 2 < l.count ip)).dedup.count ip) ≤ 1 := by
    intro ip _
    exact List.nodup_iff_count_le_one.mp (List.nodup_dedup _) ip
  have : (l.filter (fun ip => 2 < l.count ip)).dedup.filter
      (fun ip => 2 < (l.filter (fun ip => 2 < l.count ip)).dedup.count ip) = [] := by
    rw [List.filter_eq_nil_iff]
    intro a ha
    have := hle a ha
    simp only [decide_eq_true_eq]
    omega
  rw [this]
  rfl

/-- Claim C9: taking a snapshot mutates the aggregator in place, so a
second snapshot with no intervening observations and no clear yields an
empty IP list for every user (each retained IP then has count 1, which is
not greater than 2). -/
theorem second_snapshot_empty (st : List (String × List String)) (u : String)
    (ips : List String) (h : (u, ips) ∈ (check_ip_used (check_ip_used st).2).1) :
    ips = [] := by
  have h1 : (u, ips) ∈ checkIpUsedState (check_ip_used st).2 :=
    (sortBySize_perm _).mem_iff.mp h
  obtain ⟨⟨v, l⟩, hvl, he⟩ := List.mem_map.mp h1
  have h2 : (v, l) ∈ checkIpUsedState st := hvl
  obtain ⟨⟨w, l0⟩, _, he2⟩ := List.mem_map.mp h2
  have hl : l = filteredIps l0 := congrArg Prod.snd he2 |>.symm
  have hips : ips = filteredIps l := (congrArg Prod.snd he).symm
  rw [hips, hl, filteredIps_filteredIps]

theorem second_snapshot_empty_witness : ([] : List String) = [] :=
  second_snapshot_empty [("alice", ["a", "a", "a"])] "alice" [] (by decide)

theorem add_ip_stores_nonempty (redis : RedisMap) (s ip : String) :
    ∃ l, lookupKey s (add_ip_to_service redis s ip).2 = some l ∧ l ≠ [] := by
  unfold add_ip_to_service
  refine ⟨_, lookupKey_setKey_self s _ redis, ?_⟩
  by_cases h : ip ∈ ((lookupKey s redis).getD []).dedup
  · rw [if_pos h]
    intro he
    rw [he] at h
    exact (List.not_mem_nil ip) h
  · rw [if_neg h]
    simp

theorem add_ip_preserves_inv {redis : RedisMap} (hinv : RedisInv redis) (s ip : String) :
    RedisInv (add_ip_to_service redis s ip).2 := by
  intro t l hl
  by_cases ht : t = s
  · subst ht
    obtain ⟨l0, hl0, hne⟩ := add_ip_stores_nonempty redis t ip
    rw [hl0] at hl
    exact (Option.some_injective _ hl).symm ▸ hne
  · unfold add_ip_to_service at hl
    rw [lookupKey_setKey_ne (fun h => ht h) _ redis] at hl
    exact hinv t l hl

theorem remove_ip_preserves_inv {redis : RedisMap} (hinv : RedisInv redis) (s ip : String) :
    RedisInv (remove_ip_from_service redis s ip).2 := by
  unfold remove_ip_from_service
  split
  · exact hinv
  · split
    · split
      · intro t l2 hl2
        by_cases ht : t = s
        · subst ht
          rw [lookupKey_delKey_self] at hl2
          exact absurd hl2 (by simp)
        · rw [lookupKey_delKey_ne (fun h => ht h)] at hl2
          exact hinv t l2 hl2
      · next l _ _ hemp =>
          intro t l2 hl2
          by_cases ht : t = s
          · subst ht
            rw [lookupKey_setKey_self] at hl2
            have he := Option.some_injective _ hl2
            rw [← he]
            intro hl3
            rw [hl3] at hemp
            simp at hemp
          · rw [lookupKey_setKey_ne (fun h => ht h)] at hl2
            exact hinv t l2 hl2
    · exact hinv

theorem remove_ip_absent_service {redis : RedisMap} {s : String}
    (h : lookupKey s redis = none) (ip : String) :
    remove_ip_from_service redis s ip = (false, redis) := by
  unfold remove_ip_from_service
  rw [h]

theorem remove_ip_absent_ip {redis : RedisMap} {s : String} {l : List String}
    (h : lookupKey s redis = some l) {ip : String} (hip : ip ∉ l) :
    remove_ip_from_service redis s ip = (false, redis) := by
  unfold remove_ip_from_service
  rw [h]
  simp [List.mem_dedup, hip]

theorem remove_last_ip_deletes {redis : RedisMap} {s : String} {l : List String}
    (h : lookupKey s redis = some l) {ip : String} (hl : l.dedup = [ip]) :
    lookupKey s (remove_ip_from_service redis s ip).2 = none := by
  unfold remove_ip_from_service
  rw [h]
  simp only [hl]
  have : ([ip].erase ip).isEmpty := by simp [List.erase_cons]
  simp [this, lookupKey_delKey_self]

/-- Claim C10: the service-IP replica never maps a service to an empty IP
set — adding an IP always stores a non-empty set, removing the last IP of
a service deletes the service's field entirely, both operations preserve
the no-empty-set invariant, and `remove_ip_from_service` returns `False`
when the service or the IP is absent. -/
theorem service_ip_replica_never_empty (redis : RedisMap) (s ip : String) :
    (RedisInv redis → RedisInv (add_ip_to_service redis s ip).2) ∧
    (RedisInv redis → RedisInv (remove_ip_from_service redis s ip).2) ∧
    (∃ l, lookupKey s (add_ip_to_service redis s ip).2 = some l ∧ l ≠ []) ∧
    (lookupKey s redis = none → remove_ip_from_service redis s ip = (false, redis)) ∧
    (∀ l, lookupKey s redis = some l → ip ∉ l →
      remove_ip_from_service redis s ip = (false, redis)) ∧
    (∀ l, lookupKey s redis = some l → l.dedup = [ip] →
      lookupKey s (remove_ip_from_service redis s ip).2 = none) :=
  ⟨fun h => add_ip_preserves_inv h s ip,
   fun h => remove_ip_preserves_inv h s ip,
   add_ip_stores_nonempty redis s ip,
   fun h => remove_ip_absent_service h ip,
   fun _ h hip => remove_ip_absent_ip h hip,
   fun _ h hl => remove_last_ip_deletes h hl⟩

theorem service_ip_replica_never_empty_witness :
    lookupKey "svc" (remove_ip_from_service [("svc", ["a"])] "svc" "a").2 = none :=
  (service_ip_replica_never_empty [("svc", ["a"])] "svc" "a").2.2.2.2.2 ["a"]
    (by decide) (by decide)

theorem remove_ip_preserves_none {redis : RedisMap} {u : String}
    (h : lookupKey u redis = none) (v ip : String) :
    lookupKey u (remove_ip_from_service redis v ip).2 = none := by
  unfold remove_ip_from_service
  split
  · exact h
  · next l hls =>
      split
      · split
        · by_cases ht : u = v
          · subst ht
            exact lookupKey_delKey_self u redis
          · rw [lookupKey_delKey_ne ht]
            exact h
        · by_cases ht : u = v
          · subst ht
            rw [h] at hls
            cases hls
          · rw [lookupKey_setKey_ne ht]
            exact h
      · exact h

theorem removeIps_preserves_none {u : String} :
    ∀ (todo : List String) {redis : RedisMap}, lookupKey u redis = none →
      lookupKey u (removeIps u todo redis) = none := by
  intro todo
  induction todo with
  | nil => intro redis h; exact h
  | cons ip rest ih =>
      intro redis h
      exact ih (remove_ip_preserves_none h u ip)

theorem removeIps_other_preserves_none {u v : String} :
    ∀ (todo : List String) {redis : RedisMap}, lookupKey u redis = none →
      lookupKey u (removeIps v todo redis) = none := by
  intro todo
  induction todo with
  | nil => intro redis h; exact h
  | cons ip rest ih =>
      intro redis h
      exact ih (remove_ip_preserves_none h v ip)

theorem removeIps_none (u : String) :
    ∀ (todo : List String) (redis : RedisMap),
      (lookupKey u redis = none ∨
        ∃ s, lookupKey u redis = some s ∧ s ≠ [] ∧ ∀ x ∈ s, x ∈ todo) →
      lookupKey u (removeIps u todo redis) = none := by
  intro todo
  induction todo with
  | nil =>
      intro redis h
      rcases h with h | ⟨s, _, hne, hsub⟩
      · exact h
      · exact absurd (List.eq_nil_iff_forall_not_mem.mpr
          (fun x hx => absurd (hsub x hx) (List.not_mem_nil x))) hne
  | cons ip rest ih =>
      intro redis h
      rcases h with h | ⟨s, hs, hne, hsub⟩
      · exact removeIps_preserves_none (ip :: rest) h
      · show lookupKey u (removeIps u rest (remove_ip_from_service redis u ip).2) = none
        by_cases hmem : ip ∈ s.dedup
        · by_cases hemp : (s.dedup.erase ip).isEmpty
          · have hdel : (remove_ip_from_service redis u ip).2 = delKey u redis := by
              unfold remove_ip_from_service
              rw [hs]
              simp only [hmem, if_true, hemp, if_true]
            rw [hdel]
            exact removeIps_preserves_none rest (lookupKey_delKey_self u redis)
          · have hset : (remove_ip_from_service redis u ip).2 =
                setKey u (s.dedup.erase ip) redis := by
              unfold remove_ip_from_service
              rw [hs]
              simp only [hmem, if_true]
              rw [if_neg hemp]
            rw [hset]
            refine ih _ (Or.inr ⟨s.dedup.erase ip, lookupKey_setKey_self u _ redis, ?_, ?_⟩)
            · intro he
              rw [he] at hemp
              simp at hemp
            · intro x hx
              have hxd := (List.Nodup.mem_erase_iff (List.nodup_dedup s)).mp hx
              have hxs : x ∈ s := List.mem_dedup.mp hxd.2
              cases hsub x hxs with
              | head => exact absurd rfl hxd.1
              | tail _ hmem2 => exact hmem2
        · have hsame : (remove_ip_from_service redis u ip).2 = redis := by
            unfold remove_ip_from_service
            rw [hs]
            simp only [hmem, if_false]
          rw [hsame]
          refine ih _ (Or.inr ⟨s, hs, hne, ?_⟩)
          intro x hx
          cases hsub x hx with
          | head =>
              exact absurd (List.mem_dedup.mpr hx) hmem
          | tail _ hmem2 => exact hmem2

theorem purgeService_self_none {redis : RedisMap} (hinv : RedisInv redis) (u : String) :
    lookupKey u (purgeService redis u) = none := by
  unfold purgeService get_service_ips
  cases hs : lookupKey u redis with
  | none => exact removeIps_none u _ redis (Or.inl hs)
  | some s =>
      refine removeIps_none u _ redis (Or.inr ⟨s, hs, hinv u s hs, ?_⟩)
      intro x hx
      simpa [hs] using hx

theorem remove_ip_preserves_inv_state {redis : RedisMap} (hinv : RedisInv redis)
    (v ip : String) : RedisInv (remove_ip_from_service redis v ip).2 :=
  remove_ip_preserves_inv hinv v ip

theorem removeIps_preserves_inv {v : String} :
    ∀ (todo : List String) {redis : RedisMap}, RedisInv redis →
      RedisInv (removeIps v todo redis) := by
  intro todo
  induction todo with
  | nil => intro redis h; exact h
  | cons ip rest ih =>
      intro redis h
      exact ih (remove_ip_preserves_inv h v ip)

theorem purgeService_preserves_inv {redis : RedisMap} (hinv : RedisInv redis)
    (u : String) : RedisInv (purgeService redis u) :=
  removeIps_preserves_inv _ hinv

theorem processUsers_warnings_eq_disabled (except_users : List String)
    (special_limit : List (String × Int)) (limit_number : Int) :
    ∀ (log : List (String × List String)) (redis : RedisMap),
      (processUsers except_users special_limit limit_number log redis).warnings =
        (processUsers except_users special_limit limit_number log redis).disabled := by
  intro log
  induction log with
  | nil => intro redis; rfl
  | cons p t ih =>
      intro redis
      obtain ⟨u, ips⟩ := p
      unfold processUsers
      by_cases hex : u ∈ except_users
      · simp only [hex, if_true]
        exact ih redis
      · simp only [hex, if_false]
        by_cases hlim : (ips.dedup.length : Int) > userLimit special_limit limit_number u
        · simp only [hlim, if_true]
          simp [ih]
        · simp only [hlim, if_false]
          exact ih redis

theorem processUsers_disabled_iff (except_users : List String)
    (special_limit : List (String × Int)) (limit_number : Int) (u : String) :
    ∀ (log : List (String × List String)) (redis : RedisMap),
      u ∈ (processUsers except_users special_limit limit_number log redis).disabled ↔
        ∃ ips, (u, ips) ∈ log ∧ u ∉ except_users ∧
          (ips.dedup.length : Int) > userLimit special_limit limit_number u := by
  intro log
  induction log with
  | nil =>
      intro redis
      simp [processUsers]
  | cons p t ih =>
      intro redis
      obtain ⟨v, ips0⟩ := p
      unfold processUsers
      by_cases hex : v ∈ except_users
      · simp only [hex, if_true, List.mem_cons]
        rw [ih]
        constructor
        · rintro ⟨ips, hm, hne, hgt⟩
          exact ⟨ips, Or.inr hm, hne, hgt⟩
        · rintro ⟨ips, hm | hm2, hne, hgt⟩
          · have h1 : u = v := congrArg Prod.fst hm
            rw [h1] at hne
            exact absurd hex hne
          · exact ⟨ips, hm2, hne, hgt⟩
      · simp only [hex, if_false]
        by_cases hlim : (ips0.dedup.length : Int) > userLimit special_limit limit_number v
        · simp only [hlim, if_true, List.mem_cons]
          constructor
          · intro h
            cases h with
            | inl he =>
                subst he
                exact ⟨ips0, Or.inl rfl, hex, hlim⟩
            | inr hm =>
                obtain ⟨ips, hm2, hne, hgt⟩ := (ih _).mp hm
                exact ⟨ips, Or.inr hm2, hne, hgt⟩
          · rintro ⟨ips, hm | hm2, hne, hgt⟩
            · exact Or.inl (congrArg Prod.fst hm)
            · exact Or.inr ((ih _).mpr ⟨ips, hm2, hne, hgt⟩)
        · simp only [hlim, if_false, List.mem_cons]
          rw [ih]
          constructor
          · rintro ⟨ips, hm, hne, hgt⟩
            exact ⟨ips, Or.inr hm, hne, hgt⟩
          · rintro ⟨ips, hm | hm2, hne, hgt⟩
            · have h1 : u = v := congrArg Prod.fst hm
              have h2 : ips = ips0 := congrArg Prod.snd hm
              subst h1
              subst h2
              exact absurd hgt hlim
            · exact ⟨ips, hm2, hne, hgt⟩

theorem processUsers_preserves_none (except_users : List String)
    (special_limit : List (String × Int)) (limit_number : Int) (u : String) :
    ∀ (log : List (String × List String)) (redis : RedisMap),
      lookupKey u redis = none →
      lookupKey u (processUsers except_users special_limit limit_number log redis).redis
        = none := by
  intro log
  induction log with
  | nil => intro redis h; exact h
  | cons p t ih =>
      intro redis h
      obtain ⟨v, ips⟩ := p
      unfold processUsers
      by_cases hex : v ∈ except_users
      · simp only [hex, if_true]
        exact ih redis h
      · simp only [hex, if_false]
        by_cases hlim : (ips.dedup.length : Int) > userLimit special_limit limit_number v
        · simp only [hlim, if_true]
          exact ih _ (removeIps_other_preserves_none _ h)
        · simp only [hlim, if_false]
          exact ih redis h

theorem processUsers_preserves_inv (except_users : List String)
    (special_limit : List (String × Int)) (limit_number : Int) :
    ∀ (log : List (String × List String)) {redis : RedisMap}, RedisInv redis →
      RedisInv (processUsers except_users special_limit limit_number log redis).redis := by
  intro log
  induction log with
  | nil => intro redis h; exact h
  | cons p t ih =>
      intro redis h
      obtain ⟨v, ips⟩ := p
      unfold processUsers
      by_cases hex : v ∈ except_users
      · simp only [hex, if_true]
        exact ih h
      · simp only [hex, if_false]
        by_cases hlim : (ips.dedup.length : Int) > userLimit special_limit limit_number v
        · simp only [hlim, if_true]
          exact ih (purgeService_preserves_inv h v)
        · simp only [hlim, if_false]
          exact ih h

theorem processUsers_disabled_purged (except_users : List String)
    (special_limit : List (String × Int)) (limit_number : Int) (u : String) :
    ∀ (log : List (String × List String)) {redis : RedisMap}, RedisInv redis →
      u ∈ (processUsers except_users special_limit limit_number log redis).disabled →
      lookupKey u (processUsers except_users special_limit limit_number log redis).redis
        = none := by
  intro log
  induction log with
  | nil =>
      intro redis _ h
      simp [processUsers] at h
  | cons p t ih =>
      intro redis hinv h
      obtain ⟨v, ips⟩ := p
      unfold processUsers at h ⊢
      by_cases hex : v ∈ except_users
      · simp only [hex, if_true] at h ⊢
        exact ih hinv h
      · simp only [hex, if_false] at h ⊢
        by_cases hlim : (ips.dedup.length : Int) > userLimit special_limit limit_number v
        · simp only [hlim, if_true] at h ⊢
          cases List.mem_cons.mp h with
          | inl he =>
              subst he
              exact processUsers_preserves_none _ _ _ _ _ _
                (purgeService_self_none hinv u)
          | inr hm =>
              exact ih (purgeService_preserves_inv hinv v) hm
        · simp only [hlim, if_false] at h ⊢
          exact ih hinv h

theorem mem_snapshot_iff (active : List (String × List String)) (u : String)
    (ips : List String) :
    (u, ips) ∈ (check_ip_used active).1 ↔
      ∃ l, (u, l) ∈ active ∧ ips = filteredIps l := by
  have h1 : (check_ip_used active).1 = sortBySize (checkIpUsedState active) := rfl
  rw [h1, (sortBySize_perm _).mem_iff]
  unfold checkIpUsedState
  rw [List.mem_map]
  constructor
  · rintro ⟨⟨a, l⟩, hm, he⟩
    have ha : a = u := congrArg Prod.fst he
    have hf : filteredIps l = ips := congrArg Prod.snd he
    subst ha
    exact ⟨l, hm, hf.symm⟩
  · rintro ⟨l, hm, he⟩
    exact ⟨(u, l), hm, by rw [he]⟩

/-- Claim C2: in each enforcement cycle, for every user in the snapshot —
a user in the exemption list is never disabled regardless of IP count;
otherwise the effective limit is the user's special limit when one exists,
else the general limit, and the user is disabled iff the count of distinct
IPs in the snapshot strictly exceeds that limit; every disabled user is
warned about and has their service-IP entries purged from the replica. -/
theorem enforcement_disables_iff_over_limit
    (active : List (String × List String)) (except_users : List String)
    (special_limit : List (String × Int)) (limit_number : Int)
    (redis : RedisMap) (u : String) (hinv : RedisInv redis) :
    (u ∈ (check_users_usage active except_users special_limit
            limit_number redis).disabled ↔
      ∃ l, (u, l) ∈ active ∧ u ∉ except_users ∧
        ((filteredIps l).dedup.length : Int) >
          userLimit special_limit limit_number u) ∧
    (u ∈ (check_users_usage active except_users special_limit
            limit_number redis).disabled →
      u ∈ (check_users_usage active except_users special_limit
            limit_number redis).warnings ∧
      lookupKey u (check_users_usage active except_users special_limit
            limit_number redis).redis = none) := by
  unfold check_users_usage
  constructor
  · rw [processUsers_disabled_iff]
    constructor
    · rintro ⟨ips, hm, hne, hgt⟩
      obtain ⟨l, hl, he⟩ := (mem_snapshot_iff active u ips).mp hm
      subst he
      exact ⟨l, hl, hne, hgt⟩
    · rintro ⟨l, hl, hne, hgt⟩
      exact ⟨filteredIps l, (mem_snapshot_iff active u _).mpr ⟨l, hl, rfl⟩, hne, hgt⟩
  · intro h
    refine ⟨?_, ?_⟩
    · rw [processUsers_warnings_eq_disabled]
      exact h
    · exact processUsers_disabled_purged _ _ _ _ _ hinv h

theorem enforcement_disables_iff_over_limit_witness :
    ("alice" ∈ (check_users_usage [("alice", ["a", "a", "a"])] [] [] 0 []).disabled ↔
      ∃ l, ("alice", l) ∈ [("alice", ["a", "a", "a"])] ∧
        "alice" ∉ ([] : List String) ∧
        ((filteredIps l).dedup.length : Int) > userLimit [] 0 "alice") ∧
    ("alice" ∈ (check_users_usage [("alice", ["a", "a", "a"])] [] [] 0 []).disabled →
      "alice" ∈ (check_users_usage [("alice", ["a", "a", "a"])] [] [] 0 []).warnings ∧
      lookupKey "alice"
        (check_users_usage [("alice", ["a", "a", "a"])] [] [] 0 []).redis = none) :=
  enforcement_disables_iff_over_limit [("alice", ["a", "a", "a"])] [] [] 0 [] "alice"
    (fun _ _ h => Option.noConfusion h)

theorem resolveFromEndpoints_fst_some_mem :
    ∀ (oracle : List (String × Option String)) (st : GeoState) (now : Int)
      (ip c : String),
      (resolveFromEndpoints st now ip oracle).1 = some c →
      lookupKey ip (resolveFromEndpoints st now ip oracle).2.1.mem = some c := by
  intro oracle
  induction oracle with
  | nil =>
      intro st now ip c h
      exact absurd h (by simp [resolveFromEndpoints])
  | cons p rest ih =>
      obtain ⟨endpoint_name, r⟩ := p
      intro st now ip c
      unfold resolveFromEndpoints
      split
      · next c0 =>
          by_cases hc : c0 ≠ ""
          · rw [if_pos hc]
            intro h
            have hcc : c0 = c := Option.some_injective _ h
            subst hcc
            exact lookupKey_setKey_self ip c0 st.mem
          · rw [if_neg hc]
            exact ih st now ip c
      · exact ih st now ip c

theorem check_ip_fst_some_mem (st : GeoState) (now : Int)
    (oracle : List (String × Option String)) (ip c : String) :
    (check_ip st now oracle ip).1 = some c →
    lookupKey ip (check_ip st now oracle ip).2.1.mem = some c := by
  unfold check_ip
  split
  · next c0 heq =>
      intro h
      have hcc : c0 = c := Option.some_injective _ h
      subst hcc
      exact heq
  · split
    · next e _ =>
        by_cases hv : now - e.timestamp < CACHE_TTL ∧ e.country_code ≠ ""
        · rw [if_pos hv]
          intro h
          have hcc : e.country_code = c := Option.some_injective _ h
          subst hcc
          exact lookupKey_setKey_self ip e.country_code st.mem
        · rw [if_neg hv]
          exact resolveFromEndpoints_fst_some_mem oracle st now ip c
    · exact resolveFromEndpoints_fst_some_mem oracle st now ip c

theorem check_ip_mem_hit (st : GeoState) (now : Int)
    (oracle : List (String × Option String)) (ip c : String)
    (h : lookupKey ip st.mem = some c) : check_ip st now oracle ip = (some c, st, 0) := by
  unfold check_ip
  rw [h]

/-- Claim C6: resolving an IP that was successfully resolved earlier,
within the TTL, performs no call to any external lookup endpoint and
returns the same country code — the first success populates the in-memory
cache, so the second resolution is a pure cache hit. -/
theorem geo_cache_round_trip (st : GeoState) (now : Int)
    (oracle : List (String × Option String)) (ip c : String)
    (h : (check_ip st now oracle ip).1 = some c) (now' : Int)
    (oracle' : List (String × Option String)) (_httl : now' - now < CACHE_TTL) :
    check_ip (check_ip st now oracle ip).2.1 now' oracle' ip =
      (some c, (check_ip st now oracle ip).2.1, 0) := by
  exact check_ip_mem_hit _ now' oracle' ip c (check_ip_fst_some_mem st now oracle ip c h)

theorem geo_cache_round_trip_witness :
    check_ip (check_ip ⟨[], []⟩ 0 [("api", some "US")] "1.2.3.4").2.1 5
        [("api2", some "FR")] "1.2.3.4" =
      (some "US", (check_ip ⟨[], []⟩ 0 [("api", some "US")] "1.2.3.4").2.1, 0) :=
  geo_cache_round_trip ⟨[], []⟩ 0 [("api", some "US")] "1.2.3.4" "US" (by decide)
    5 [("api2", some "FR")] (by decide)

/-- Claim C4: a persistent-cache entry whose age exceeds the 3-day TTL is
treated as absent on the next resolution attempt (given the in-memory
tier misses, resolution proceeds through the external endpoint chain and
the stale value is not served), and expired entries are purged from the
cache content written by every flush. -/
theorem ttl_expired_entry_treated_absent (st : GeoState) (now : Int)
    (oracle : List (String × Option String)) (ip : String) (e : CacheEntry)
    (hm : lookupKey ip st.mem = none) (hp : lookupKey ip st.pers = some e)
    (hage : CACHE_TTL < now - e.timestamp) :
    check_ip st now oracle ip = resolveFromEndpoints st now ip oracle ∧
    (ip, e) ∉ save_ip_cache now st.pers ∧
    (∀ (cache : List (String × CacheEntry)) (p : String × CacheEntry),
      p ∈ save_ip_cache now cache ↔ p ∈ cache ∧ now - p.2.timestamp < CACHE_TTL) := by
  refine ⟨?_, ?_, ?_⟩
  · unfold check_ip
    split
    · next c0 heq =>
        rw [hm] at heq
        exact Option.noConfusion heq
    · split
      · next e0 heq =>
          rw [hp] at heq
          have he : e = e0 := Option.some_injective _ heq
          subst he
          rw [if_neg (fun hv => absurd hv.1 (by omega))]
      · next heq =>
          rw [hp] at heq
  · intro hmem
    have := (List.mem_filter.mp hmem).2
    simp only [decide_eq_true_eq] at this
    omega
  · intro cache p
    unfold save_ip_cache
    rw [List.mem_filter]
    simp

theorem ttl_expired_entry_treated_absent_witness :
    (check_ip ⟨[], [("9.9.9.9", ⟨"US", 0, "api"⟩)]⟩ (CACHE_TTL + 1) [] "9.9.9.9" =
      resolveFromEndpoints ⟨[], [("9.9.9.9", ⟨"US", 0, "api"⟩)]⟩ (CACHE_TTL + 1)
        "9.9.9.9" []) ∧
    (("9.9.9.9", (⟨"US", 0, "api"⟩ : CacheEntry)) ∉
      save_ip_cache (CACHE_TTL + 1) [("9.9.9.9", ⟨"US", 0, "api"⟩)]) ∧
    (∀ (cache : List (String × CacheEntry)) (p : String × CacheEntry),
      p ∈ save_ip_cache (CACHE_TTL + 1) cache ↔
        p ∈ cache ∧ (CACHE_TTL + 1) - p.2.timestamp < CACHE_TTL) :=
  ttl_expired_entry_treated_absent ⟨[], [("9.9.9.9", ⟨"US", 0, "api"⟩)]⟩
    (CACHE_TTL + 1) [] "9.9.9.9" ⟨"US", 0, "api"⟩ (by decide) (by decide) (by decide)

theorem lookupKey_recordUser_self (active : List (String × List String))
    (email ip : String) :
    ∃ l, lookupKey email (recordUser active email ip) = some l ∧ ip ∈ l := by
  unfold recordUser
  cases hl : lookupKey email active with
  | some l =>
      exact ⟨l ++ [ip], lookupKey_setKey_self email _ active, by simp⟩
  | none =>
      refine ⟨[ip], ?_, by simp⟩
      rw [lookupKey_append_right hl]
      simp [lookupKey]

theorem lookupKey_add_ip_self (redis : RedisMap) (s ip : String) :
    ∃ l, lookupKey s (add_ip_to_service redis s ip).2 = some l ∧ ip ∈ l := by
  unfold add_ip_to_service
  refine ⟨_, lookupKey_setKey_self s _ redis, ?_⟩
  by_cases h : ip ∈ ((lookupKey s redis).getD []).dedup
  · rw [if_pos h]
    exact h
  · rw [if_neg h]
    simp

theorem resolveFromEndpoints_all_fail :
    ∀ (oracle : List (String × Option String)) (st : GeoState) (now : Int)
      (ip : String), (∀ p ∈ oracle, p.2 = none) →
      resolveFromEndpoints st now ip oracle = (none, st, oracle.length) := by
  intro oracle
  induction oracle with
  | nil => intro st now ip _; rfl
  | cons p rest ih =>
      obtain ⟨endpoint_name, r⟩ := p
      intro st now ip hall
      have hr : r = none := hall (endpoint_name, r) (List.mem_cons_self _ _)
      subst hr
      unfold resolveFromEndpoints
      rw [ih st now ip (fun q hq => hall q (List.mem_cons_of_mem _ hq))]
      rfl

/-- Claim C7: when location filtering is enabled with a configured target
country and an IP's country cannot be resolved, the IP is accepted
(fail-open) — the resolver returns `none` after exhausting every
endpoint, and the parser then adds the IP to `VALID_IPS` and records the
`(user, ip)` observation in the aggregator and the Redis replica instead
of discarding it. -/
theorem unresolved_location_fail_open :
    (∀ (st : GeoState) (now : Int) (oracle : List (String × Option String))
      (ip : String), lookupKey ip st.mem = none → lookupKey ip st.pers = none →
      (∀ p ∈ oracle, p.2 = none) →
      check_ip st now oracle ip = (none, st, oracle.length)) ∧
    (∀ (target : String) (st : ParseState) (ip email : String),
      ip ∉ st.validIps → ip ∉ st.invalidIps → target ≠ "None" →
      email ∉ INVALID_EMAILS →
      (processObservation true target true none st ip email).validIps
          = st.validIps ++ [ip] ∧
        (∃ l, lookupKey email
            (processObservation true target true none st ip email).active = some l ∧
          ip ∈ l) ∧
        (∃ l, lookupKey email
            (processObservation true target true none st ip email).redis = some l ∧
          ip ∈ l)) := by
  constructor
  · intro st now oracle ip hm hp hall
    unfold check_ip
    split
    · next c0 heq =>
        rw [hm] at heq
        exact Option.noConfusion heq
    · split
      · next e0 heq =>
          rw [hp] at heq
          exact Option.noConfusion heq
      · exact resolveFromEndpoints_all_fail oracle st now ip hall
  · intro target st ip email hv hinv htarget hemail
    unfold processObservation
    rw [if_neg hv, if_pos ⟨rfl, hinv⟩, if_pos ⟨rfl, htarget⟩]
    unfold emailStep
    rw [if_neg hemail]
    refine ⟨rfl, ?_, ?_⟩
    · exact lookupKey_recordUser_self st.active email ip
    · exact lookupKey_add_ip_self st.redis email ip

theorem unresolved_location_fail_open_witness :
    (check_ip ⟨[], []⟩ 0 [("api", none), ("api2", none)] "2.3.4.5" =
      (none, ⟨[], []⟩, 2)) ∧
    ((processObservation true "US" true none ⟨[], [], [], []⟩
        "2.3.4.5" "alice").validIps = [] ++ ["2.3.4.5"] ∧
      (∃ l, lookupKey "alice" (processObservation true "US" true none
          ⟨[], [], [], []⟩ "2.3.4.5" "alice").active = some l ∧ "2.3.4.5" ∈ l) ∧
      (∃ l, lookupKey "alice" (processObservation true "US" true none
          ⟨[], [], [], []⟩ "2.3.4.5" "alice").redis = some l ∧ "2.3.4.5" ∈ l)) :=
  ⟨unresolved_location_fail_open.1 ⟨[], []⟩ 0 [("api", none), ("api2", none)]
      "2.3.4.5" rfl rfl (by decide),
   unresolved_location_fail_open.2 "US" ⟨[], [], [], []⟩ "2.3.4.5" "alice"
      (by decide) (by decide) (by decide) (by decide)⟩

/-- Claim C1 counterexample: the claimed order is reversed in the code.
With a succeeding Redis write and a failing durable write, adding the
special limit `("alice", 3)` from empty stores mutates the cache
(`redisSpecial` becomes `[("alice", 3)]`) while the durable store stays
empty and the mutation reports failure — the durable store was not
written first, and a durable-write failure did not keep the cache
unchanged. -/
theorem durable_first_counterexample :
    (add_special_limit true false ⟨[], [], [], []⟩ "alice" 3).2.redisSpecial
        = [("alice", 3)] ∧
      (add_special_limit true false ⟨[], [], [], []⟩ "alice" 3).2.configSpecial
        = [] ∧
      (add_special_limit true false ⟨[], [], [], []⟩ "alice" 3).1 = false := by
  refine ⟨rfl, rfl, rfl⟩

/-- Claim C1 (amended): for every special-limit or exemption mutation
(add/remove/update), the distributed cache is written first, and only if
that cache write succeeds is the updated set/map synced to the durable
configuration store; in particular, if the cache write fails, the
mutation aborts reporting failure with both stores (durable store
included) unchanged. -/
theorem cache_first_mutation_order (st : StoresState) (username : String)
    (limit : Int) (configOk : Bool) :
    (add_special_limit false configOk st username limit = (false, st)) ∧
    (remove_special_limit false configOk st username = (false, st)) ∧
    (username ∉ st.redisExcept →
      add_except_user false configOk st username = (false, st)) ∧
    (remove_except_user false configOk st username = (false, st)) ∧
    (∀ redisOk,
      (add_special_limit redisOk configOk st username limit).2.configSpecial
          ≠ st.configSpecial →
        (redis_add_special_limit redisOk st username limit).1 = true) := by
  refine ⟨rfl, ?_, ?_, ?_, ?_⟩
  · unfold remove_special_limit redis_remove_special_limit
    cases h : lookupKey username st.redisSpecial <;> rfl
  · intro hmem
    unfold add_except_user redis_add_except_user
    rw [if_neg hmem]
    rfl
  · unfold remove_except_user redis_remove_except_user
    by_cases hmem : username ∈ st.redisExcept
    · rw [if_pos hmem]
      rfl
    · rw [if_neg hmem]
  · intro redisOk hne
    cases redisOk with
    | true => rfl
    | false => exact absurd rfl hne

theorem cache_first_mutation_order_witness :
    (add_special_limit false true ⟨[], [], [], []⟩ "alice" 3
        = (false, ⟨[], [], [], []⟩)) ∧
    (remove_special_limit false true ⟨[], [], [], []⟩ "alice"
        = (false, ⟨[], [], [], []⟩)) ∧
    ("alice" ∉ (⟨[], [], [], []⟩ : StoresState).redisExcept →
      add_except_user false true ⟨[], [], [], []⟩ "alice"
        = (false, ⟨[], [], [], []⟩)) ∧
    (remove_except_user false true ⟨[], [], [], []⟩ "alice"
        = (false, ⟨[], [], [], []⟩)) ∧
    (∀ redisOk,
      (add_special_limit redisOk true ⟨[], [], [], []⟩ "alice" 3).2.configSpecial
          ≠ (⟨[], [], [], []⟩ : StoresState).configSpecial →
        (redis_add_special_limit redisOk ⟨[], [], [], []⟩ "alice" 3).1 = true) :=
  cache_first_mutation_order ⟨[], [], [], []⟩ "alice" 3 true

/-- Claim C8: setting the enforcement check interval below 10 seconds is
refused at configuration time — the stored config is kept unchanged —
while a value of 10 or more is accepted and saved as `CHECK_INTERVAL`. -/
theorem check_interval_minimum (interval : Int) (cfg : ConfigFile) :
    (interval < 10 → get_check_interval_handler interval cfg = (cfg, false)) ∧
    (10 ≤ interval → ∃ data,
      get_check_interval_handler interval cfg = (some data, true) ∧
        lookupKey "CHECK_INTERVAL" data = some interval) := by
  constructor
  · intro h
    unfold get_check_interval_handler
    rw [if_pos h]
  · intro h
    unfold get_check_interval_handler
    rw [if_neg (by omega)]
    refine ⟨(save_check_interval interval cfg).2, rfl, ?_⟩
    unfold save_check_interval
    cases cfg with
    | some data => exact lookupKey_setKey_self "CHECK_INTERVAL" interval data
    | none => simp [lookupKey]

theorem check_interval_minimum_witness :
    (get_check_interval_handler 5 (some [("CHECK_INTERVAL", 30)])
        = (some [("CHECK_INTERVAL", 30)], false)) ∧
    (∃ data, get_check_interval_handler 10 (some [("CHECK_INTERVAL", 30)])
        = (some data, true) ∧ lookupKey "CHECK_INTERVAL" data = some 10) :=
  ⟨(check_interval_minimum 5 (some [("CHECK_INTERVAL", 30)])).1 (by decide),
   (check_interval_minimum 10 (some [("CHECK_INTERVAL", 30)])).2 (by decide)⟩

end V2Limiter
